import Mathlib

/-!
Verification of the instruction-stepping engine (qstep: commands ssi / nni).

The Python source is shallowly embedded here.  Strings are modelled as
`List Char`; the host debugger (gdb) is modelled as an abstract oracle
(`IterHost`) providing exactly the capabilities the code consumes:
the two-line disassembly window, fallible expression evaluation, fallible
breakpoint creation (with the older-gdb `TypeError` retry path), fallible
breakpoint deletion, and resume-and-wait.  Python exceptions are modelled
with `Option`/`Except` and explicit error results.  Modelled subset notes:
Python `str.strip` is modelled over the whitespace characters space, tab,
newline and carriage return; underscore separators in integer literals of
`int(s, 0)` are not modelled.
-/

/-- Whitespace as used by the Python-level `strip` / `split(None)`. -/
def isWS (c : Char) : Bool := c == ' ' || c == '\t' || c == '\n' || c == '\r'

/-- Drop trailing whitespace (the right half of Python `strip`). -/
def dropTrailWS (l : List Char) : List Char := (l.reverse.dropWhile isWS).reverse

/-- Python `str.strip()`. -/
def pyStrip (l : List Char) : List Char := dropTrailWS (l.dropWhile isWS)

/-- Python `s.lower()` (ASCII mnemonics only are relevant). -/
def pyLower (l : List Char) : List Char := l.map Char.toLower

/-- Python `s.startswith(p)`; first argument is the string, second the prefix tested. -/
def pyStartswith : List Char → List Char → Bool
  | _, [] => true
  | [], _ :: _ => false
  | c :: cs, p :: ps => c == p && pyStartswith cs ps

/-- The decimal digit characters `0`-`9` (codepoints 48-57). -/
def isDecDigit (c : Char) : Bool := 48 ≤ c.toNat && c.toNat ≤ 57

/-- Characters matched by `[0-9a-fA-F]` in the regex `ADDR_RE = 0x[0-9a-fA-F]+`
    (codepoints of `a`-`f` are 97-102, of `A`-`F` are 65-70). -/
def isHexDigit (c : Char) : Bool :=
  isDecDigit c || (97 ≤ c.toNat && c.toNat ≤ 102) || (65 ≤ c.toNat && c.toNat ≤ 70)

/-- Numeric value of one digit character (valid for the bases used below). -/
def hexDigitVal (c : Char) : Nat :=
  if isDecDigit c then c.toNat - 48
  else if 97 ≤ c.toNat then c.toNat - 97 + 10
  else c.toNat - 65 + 10

/-- Value of a digit string in base `b` (most significant digit first). -/
def baseVal (b : Nat) (ds : List Char) : Nat :=
  ds.foldl (fun n c => b * n + hexDigitVal c) 0

/-- Value of a hexadecimal digit string. -/
def hexVal (ds : List Char) : Nat := baseVal 16 ds

/-- Python `int(s, 16)` as applied to a regex match of `ADDR_RE`:
    an optional `0x` prefix followed by hex digits. -/
def pyInt16 : List Char → Nat
  | '0' :: 'x' :: r => hexVal r
  | r => hexVal r

/-- Try to match the regex `0x[0-9a-fA-F]+` at the start of the list.
    Returns `(matched text, remainder after the match)` on success. -/
def tryHexAt (l : List Char) : Option (List Char × List Char) :=
  match l with
  | c0 :: c1 :: rest =>
    if c0 = '0' ∧ c1 = 'x' then
      let ds := rest.takeWhile isHexDigit
      if ds.isEmpty then none
      else some ('0' :: 'x' :: ds, rest.dropWhile isHexDigit)
    else none
  | _ => none

/-- `re.search(ADDR_RE, s)`: leftmost match of `0x[0-9a-fA-F]+`, greedy digits.
    Returns `(text before the match, matched text, text after the match)`. -/
def searchHex : List Char → Option (List Char × List Char × List Char)
  | [] => none
  | c :: cs =>
    match tryHexAt (c :: cs) with
    | some (m, after) => some ([], m, after)
    | none =>
      match searchHex cs with
      | none => none
      | some (b, m, a) => some (c :: b, m, a)

/-- Whether a line contains a hexadecimal literal (a match of `ADDR_RE`). -/
def hasHexLiteral (l : List Char) : Bool := (searchHex l).isSome

/-- `_clean_line`: strip the line; when it starts with the current-pc marker
    `=>`, drop the marker and strip again. -/
def _clean_line (line : List Char) : List Char :=
  let l := pyStrip line
  if pyStartswith l ("=>".data) then pyStrip (l.drop 2) else l

/-- Split a list at the first `':'` (Python `line.split(":", 1)`), returning
    the parts before and after it; `none` when no colon occurs. -/
def splitFirstColon : List Char → Option (List Char × List Char)
  | [] => none
  | c :: r =>
    if c = ':' then some ([], r)
    else
      match splitFirstColon r with
      | none => none
      | some (a, b) => some (c :: a, b)

/-- `_parse_insn`: decode one instruction-text line into
    `(address, mnemonic, operand text)`; `RuntimeError` is modelled as
    `Except.error` carrying the message. -/
def _parse_insn (line : List Char) : Except String (Nat × List Char × List Char) :=
  let l := _clean_line line
  match searchHex l with
  | none => .error ("failed to parse address from: " ++ String.mk l)
  | some (_, mtch, after) =>
    let addr := pyInt16 mtch
    let rest :=
      match splitFirstColon l with
      | some (_, r) => r
      | none => after
    let rest := pyStrip rest
    if rest.isEmpty then .ok (addr, [], [])
    else
      let mnem := rest.takeWhile (fun c => !isWS c)
      let tail := (rest.dropWhile (fun c => !isWS c)).dropWhile isWS
      let op := pyStrip tail
      .ok (addr, mnem, op)

/-- `_disas2`: keep the non-blank lines of the `x/2i $pc` output and require
    at least two of them. -/
def _disas2 (out : List (List Char)) : Except String (List Char × List Char) :=
  let lines := out.filter (fun l => !(pyStrip l).isEmpty)
  match lines with
  | l0 :: l1 :: _ => .ok (l0, l1)
  | _ => .error "x/2i $pc returned < 2 lines"

/-- `_addr_from_operand`: pick the first `0x...` literal in the operand text. -/
def _addr_from_operand (op : List Char) : Option Nat :=
  match searchHex op with
  | none => none
  | some (_, mtch, _) => some (pyInt16 mtch)

/-! ## Host debugger model -/

/-- Outcome of a `gdb.Breakpoint(spec, temporary=True, internal=True)` call:
    success, `TypeError` (older gdb without `internal=`), or a host error
    (e.g. the address is rejected as invalid). -/
inductive CreateRes
  | ok
  | typeErr
  | err
deriving DecidableEq

/-- What `gdb.execute "continue"` does: return with the target stopped at
    some address, or raise. -/
inductive ContRes
  | stopped (stopAddr : Nat)
  | raised
deriving DecidableEq

/-- Oracle for one `_step_like` iteration: the host debugger's responses.
    `evalU64` models `gdb.parse_and_eval` on an expression (`none` = raises);
    `create1 i a` is the outcome of the i-th breakpoint-creation attempt of
    the iteration, at address `a`; `create2 i a` tells whether the retry
    without `internal=` succeeds; `deleteOk i a` tells whether the i-th
    `bp.delete()` call succeeds (`false` = raises, e.g. the temporary
    breakpoint already auto-removed itself when it fired). -/
structure IterHost where
  disas : List (List Char)
  evalU64 : List Char → Option Nat
  create1 : Nat → Nat → CreateRes
  create2 : Nat → Nat → Bool
  contRes : ContRes
  deleteOk : Nat → Nat → Bool

/-- `_read_u64`: fallible integer read through the host (`int(gdb.parse_and_eval e)`). -/
def _read_u64 (h : IterHost) (expr : List Char) : Option Nat := h.evalU64 expr

/-- The fixed expression used to read the return address at the top of the
    call stack. -/
def rspExpr : List Char := "(unsigned long long)*(unsigned long long*)$rsp".data

/-- Body of `_set_temp_bps`: walk the candidate list, skipping `None`
    entries, creating one temporary breakpoint per address; `i` counts the
    creation attempts, `acc` the breakpoints created so far (reversed).
    Returns the breakpoints created (in order) and, when a creation raised,
    the offending address (the exception escaping `_set_temp_bps`). -/
def setTempBpsGo (h : IterHost) : Nat → List Nat → List (Option Nat) → List Nat × Option Nat
  | _, acc, [] => (acc.reverse, none)
  | i, acc, none :: rest => setTempBpsGo h i acc rest
  | i, acc, some a :: rest =>
    match h.create1 i a with
    | .ok => setTempBpsGo h (i + 1) (a :: acc) rest
    | .typeErr =>
      if h.create2 i a then setTempBpsGo h (i + 1) (a :: acc) rest
      else (acc.reverse, some a)
    | .err => (acc.reverse, some a)

/-- `_set_temp_bps`: install one temporary breakpoint per candidate address. -/
def _set_temp_bps (h : IterHost) (addrs : List (Option Nat)) : List Nat × Option Nat :=
  setTempBpsGo h 0 [] addrs

/-- One `bp.delete()` call, fallible. -/
def tryDelete (h : IterHost) (i a : Nat) : Except Unit Unit :=
  if h.deleteOk i a then .ok () else .error ()

/-- Body of `_delete_bps`: attempt deletion of every breakpoint, swallowing
    any exception (`except Exception: pass`).  Returns the list of
    breakpoints for which deletion was attempted. -/
def deleteBpsGo (h : IterHost) : Nat → List Nat → List Nat
  | _, [] => []
  | i, a :: rest =>
    match tryDelete h i a with
    | .ok _ => a :: deleteBpsGo h (i + 1) rest
    | .error _ => a :: deleteBpsGo h (i + 1) rest

/-- `_delete_bps`: best-effort deletion of the given breakpoints. -/
def _delete_bps (h : IterHost) (bps : List Nat) : List Nat := deleteBpsGo h 0 bps

/-- How one `_step_like` iteration ended.  `parseErr` is the `RuntimeError`
    of `_disas2` / `_parse_insn`; `armErr` the exception escaping
    `_set_temp_bps`; `contErr` the exception raised by `continue` and
    re-raised after the `finally` cleanup. -/
inductive StepRes
  | ok
  | parseErr (msg : String)
  | armErr
  | contErr
deriving DecidableEq

/-- Observable trace of one `_step_like` iteration.
    `candidates` is the computed outcome set (the `addrs` list, `None`
    entries removed); `created` the breakpoints actually created, in order;
    `deleted` the breakpoints for which deletion was attempted; `resumed`
    whether `continue` was executed; `stopAddr` where the target stopped
    when `continue` returned; `rejected` the candidate address whose
    creation raised, if any. -/
structure StepTrace where
  result : StepRes
  candidates : List Nat
  created : List Nat
  deleted : List Nat
  resumed : Bool
  stopAddr : Option Nat
  rejected : Option Nat
deriving DecidableEq

/-- Trace of an iteration that aborted with a decode error: nothing armed. -/
def parseTrace (m : String) : StepTrace :=
  { result := .parseErr m, candidates := [], created := [], deleted := [],
    resumed := false, stopAddr := none, rejected := none }

/-- The control-flow classification of `_step_like` (its `if/elif` chain on
    the lowered mnemonic), producing the candidate list `addrs`. -/
def classify (next_over_call : Bool) (h : IterHost) (mnem op : List Char)
    (nxt_addr : Nat) : List (Option Nat) :=
  let mnem_l := pyLower mnem
  if pyStartswith mnem_l ("ret".data) then
    match _read_u64 h rspExpr with
    | some ra => [some ra]
    | none => [some nxt_addr]
  else if pyStartswith mnem_l ("call".data) then
    if next_over_call then [some nxt_addr]
    else
      match _addr_from_operand op with
      | some tgt => [some tgt]
      | none => [some nxt_addr]
  else if pyStartswith mnem_l ("j".data) then
    let tgt := _addr_from_operand op
    if mnem_l == "jmp".data || mnem_l == "jmpq".data then
      match tgt with
      | some t => [some t]
      | none => [some nxt_addr]
    else
      [some nxt_addr] ++ (match tgt with | some t => [some t] | none => [])
  else [some nxt_addr]

/-- The candidate continuation addresses (the outcome set as addresses). -/
def candAddrs (next_over_call : Bool) (h : IterHost) (mnem op : List Char)
    (nxt_addr : Nat) : List Nat :=
  (classify next_over_call h mnem op nxt_addr).filterMap id

/-- Arm the candidate breakpoints, `continue`, and clean up
    (`try: continue finally: _delete_bps`).  An exception escaping
    `_set_temp_bps` aborts before the `try` block, so no cleanup runs. -/
def armAndRun (h : IterHost) (addrs : List (Option Nat)) : StepTrace :=
  match _set_temp_bps h addrs with
  | (created, some a) =>
    { result := .armErr, candidates := addrs.filterMap id, created := created,
      deleted := [], resumed := false, stopAddr := none, rejected := some a }
  | (created, none) =>
    match h.contRes with
    | .stopped sa =>
      { result := .ok, candidates := addrs.filterMap id, created := created,
        deleted := _delete_bps h created, resumed := true, stopAddr := some sa,
        rejected := none }
    | .raised =>
      { result := .contErr, candidates := addrs.filterMap id, created := created,
        deleted := _delete_bps h created, resumed := true, stopAddr := none,
        rejected := none }

/-- `_step_like`: one stepping iteration (decode, classify, arm, resume,
    disarm), returning its observable trace. -/
def _step_like (next_over_call : Bool) (h : IterHost) : StepTrace :=
  match _disas2 h.disas with
  | .error m => parseTrace m
  | .ok (l0, l1) =>
    match _parse_insn l0 with
    | .error m => parseTrace m
    | .ok (_, mnem, op) =>
      match _parse_insn l1 with
      | .error m => parseTrace m
      | .ok (nxt_addr, _, _) =>
        armAndRun h (classify next_over_call h mnem op nxt_addr)

/-- The `for _ in range(n)` loop of `SSI.invoke` / `NNI.invoke`: perform up
    to `n` iterations starting at iteration index `i`, stopping at (and
    propagating) the first raised error. -/
def runSteps (next_over_call : Bool) (hosts : Nat → IterHost) :
    Nat → Nat → List StepTrace × Option StepRes
  | 0, _ => ([], none)
  | n + 1, i =>
    let t := _step_like next_over_call (hosts i)
    match t.result with
    | .ok =>
      let r := runSteps next_over_call hosts n (i + 1)
      (t :: r.1, r.2)
    | e => ([t], some e)

/-- Result of an `invoke` call: normal completion, a `ValueError` from
    `int(arg, 0)`, or a propagated stepping error. -/
inductive InvokeRes
  | ok
  | valueErr
  | err (e : StepRes)
deriving DecidableEq

/-- Map the loop result to the invoke result. -/
def invokeResOf : Option StepRes → InvokeRes
  | none => .ok
  | some e => .err e

/-- Modelled Python `int(s, b)` digit parsing for base `b`: nonempty and
    all digits valid for the base. -/
def parseDigits (b : Nat) (ds : List Char) : Option Nat :=
  if !ds.isEmpty && ds.all (fun c => isHexDigit c && hexDigitVal c < b) then
    some (baseVal b ds)
  else none

/-- The part of Python `int(s, 0)` after a leading `0`: a base prefix, the
    all-zero decimal form, or a `ValueError` (base-0 forbids other decimals
    with leading zeros). -/
def natPartZero (r : List Char) : Option Nat :=
  match r with
  | [] => some 0
  | c2 :: r2 =>
    if c2 = 'x' ∨ c2 = 'X' then parseDigits 16 r2
    else if c2 = 'o' ∨ c2 = 'O' then parseDigits 8 r2
    else if c2 = 'b' ∨ c2 = 'B' then parseDigits 2 r2
    else if ('0' :: r).all (fun d => d = '0') then some 0
    else none

/-- The unsigned part of Python `int(s, 0)`: base prefix detection with the
    base-0 leading-zero restriction. -/
def natPart : List Char → Option Nat
  | [] => none
  | c :: r => if c = '0' then natPartZero r else parseDigits 10 (c :: r)

/-- Python `int(s, 0)` on a stripped argument string (`none` = `ValueError`). -/
def pyIntBase0 : List Char → Option Int
  | [] => none
  | c :: r =>
    if c = '+' then (natPart r).map (fun n => (n : Int))
    else if c = '-' then (natPart r).map (fun n => -(n : Int))
    else (natPart (c :: r)).map (fun n => (n : Int))

/-- `invoke(arg)`: strip the argument, `n = int(arg, 0) if arg else 1`,
    then `for _ in range(n): _step_like(next_over_call)`.  Returns the
    iteration traces and the overall result. -/
def pyInvoke (next_over_call : Bool) (hosts : Nat → IterHost) (arg : List Char) :
    List StepTrace × InvokeRes :=
  let a := pyStrip arg
  if a.isEmpty then
    let r := runSteps next_over_call hosts 1 0
    (r.1, invokeResOf r.2)
  else
    match pyIntBase0 a with
    | none => ([], .valueErr)
    | some n =>
      let r := runSteps next_over_call hosts n.toNat 0
      (r.1, invokeResOf r.2)

/-- `SSI.invoke`: the `ssi` command (step into: `next_over_call=False`). -/
def SSI_invoke (hosts : Nat → IterHost) (arg : List Char) :
    List StepTrace × InvokeRes := pyInvoke false hosts arg

/-- `NNI.invoke`: the `nni` command (step over: `next_over_call=True`). -/
def NNI_invoke (hosts : Nat → IterHost) (arg : List Char) :
    List StepTrace × InvokeRes := pyInvoke true hosts arg

/-! ## Concrete hosts used by witnesses and counterexamples -/

/-- A benign host: linear `nop` at `0x1000`, creation succeeds, the target
    stops at the armed fallthrough, deletion succeeds. -/
def okHost : IterHost :=
  { disas := ["0x1000:\tnop".data, "0x1001:\tnop".data]
    evalU64 := fun _ => none
    create1 := fun _ _ => .ok
    create2 := fun _ _ => true
    contRes := .stopped 0x1001
    deleteOk := fun _ _ => true }

/-! ## Further definitions used by the statements -/

/-- Whether an `Except` result is a success. -/
def isOkB {α : Type} (e : Except String α) : Bool :=
  match e with
  | .ok _ => true
  | .error _ => false

/-- The operand field of an instruction-text line: empty, or a separating
    space followed by the operand text. -/
def opPart (op : List Char) : List Char := if op.isEmpty then [] else ' ' :: op

/-- An instruction-text line of the shape `<hex-address>: <mnemonic> [operand]`. -/
def coreLine (ds mnem op : List Char) : List Char :=
  '0' :: 'x' :: (ds ++ ':' :: ' ' :: (mnem ++ opPart op))

/-- The part of a line after its address colon: one space, the mnemonic,
    and the operand field. -/
def afterColon (mnem op : List Char) : List Char := ' ' :: (mnem ++ opPart op)

/-- The same line, optionally prefixed by the current-pc marker `=> `. -/
def mkInsnLine (marker : Bool) (ds mnem op : List Char) : List Char :=
  (if marker then "=> ".data else []) ++ coreLine ds mnem op

/-- A host whose benign step stops at an address unrelated to the armed
    candidate (for instance an unrelated user breakpoint fired). -/
def unrelHost : IterHost :=
  { disas := ["0x1000:\tnop".data, "0x1001:\tnop".data]
    evalU64 := fun _ => none
    create1 := fun _ _ => .ok
    create2 := fun _ _ => true
    contRes := .stopped 0x9999
    deleteOk := fun _ _ => true }

/-- A host where `continue` raises and deleting the temporary breakpoint
    fails (it already auto-removed itself). -/
def raisedHost : IterHost :=
  { disas := ["0x1000:\tnop".data, "0x1001:\tnop".data]
    evalU64 := fun _ => none
    create1 := fun _ _ => .ok
    create2 := fun _ _ => true
    contRes := .raised
    deleteOk := fun _ _ => false }

/-- A host with a two-candidate conditional jump where the host accepts the
    first breakpoint and rejects the second. -/
def armFailHost : IterHost :=
  { disas := ["0x1000:\tje     0x3000".data, "0x1005:\tnop".data]
    evalU64 := fun _ => none
    create1 := fun i _ => if i = 0 then .ok else .err
    create2 := fun _ _ => true
    contRes := .stopped 0x3000
    deleteOk := fun _ _ => true }

/-- Like `armFailHost`, at different addresses (host rejects candidate
    `0x4000`, accepts `0x2006`). -/
def armFail2Host : IterHost :=
  { disas := ["0x2000:\tje     0x4000".data, "0x2006:\tnop".data]
    evalU64 := fun _ => none
    create1 := fun i _ => if i = 0 then .ok else .err
    create2 := fun _ _ => true
    contRes := .stopped 0x4000
    deleteOk := fun _ _ => true }

/-- Like `armFailHost`, with a `jne` at again different addresses. -/
def armFail3Host : IterHost :=
  { disas := ["0x5000:\tjne    0x6000".data, "0x5002:\tnop".data]
    evalU64 := fun _ => none
    create1 := fun i _ => if i = 0 then .ok else .err
    create2 := fun _ _ => true
    contRes := .stopped 0x6000
    deleteOk := fun _ _ => true }

/-- A host whose disassembly source yields no usable lines. -/
def shortHost : IterHost :=
  { disas := []
    evalU64 := fun _ => none
    create1 := fun _ _ => .ok
    create2 := fun _ _ => true
    contRes := .stopped 0
    deleteOk := fun _ _ => true }

/-- Claim C1 as stated: in every iteration the created breakpoints all get
    destroyed (deletion attempted), except that an iteration aborting on a
    structural decode failure armed none. -/
def C1Prop : Prop := ∀ (noc : Bool) (h : IterHost),
  (_step_like noc h).deleted = (_step_like noc h).created ∨
  (∃ m, (_step_like noc h).result = .parseErr m ∧ (_step_like noc h).created = [])

/-- Claim C2 as stated: a candidate whose breakpoint creation the host
    rejects is dropped and the iteration continues (resumes) with the
    remaining candidates; if that empties the candidate set, the iteration
    fails without resuming. -/
def C2Prop : Prop := ∀ (noc : Bool) (h : IterHost) (a : Nat),
  (_step_like noc h).rejected = some a →
  ((_step_like noc h).resumed = true ∧ a ∉ (_step_like noc h).created) ∨
  (((_step_like noc h).candidates.filter (fun x => x != a)) = [] ∧
    (_step_like noc h).resumed = false)

/-- Claim C3 as stated: when a repetition's stop is unrelated (not at one of
    that repetition's candidates), the controller performs no further
    repetitions. -/
def C3Prop : Prop := ∀ (noc : Bool) (hosts : Nat → IterHost) (n i sa : Nat)
    (hi : i < (runSteps noc hosts n 0).1.length),
  ((runSteps noc hosts n 0).1.get ⟨i, hi⟩).stopAddr = some sa →
  sa ∉ ((runSteps noc hosts n 0).1.get ⟨i, hi⟩).candidates →
  (runSteps noc hosts n 0).1.length = i + 1

/-- Claim C10 as stated: every iteration that reaches the arming phase has
    deletion attempted for every breakpoint created in it. -/
def C10Prop : Prop := ∀ (noc : Bool) (h : IterHost),
  (_step_like noc h).candidates ≠ [] →
  (_step_like noc h).deleted = (_step_like noc h).created

/-- A host whose stack read succeeds with `0x7777`. -/
def retHost : IterHost :=
  { disas := ["0x1000:\tret".data, "0x1001:\tnop".data]
    evalU64 := fun _ => some 0x7777
    create1 := fun _ _ => .ok
    create2 := fun _ _ => true
    contRes := .stopped 0x7777
    deleteOk := fun _ _ => true }

/-! ## Sanity checks of the embedding on concrete inputs -/

example : _parse_insn ("0x7fffb7dd71a9:\tendbr64".data) =
    .ok (0x7fffb7dd71a9, "endbr64".data, []) := by rfl
example : _parse_insn ("=> 0x7fffb7dd71d6:\tcall   0x7fffb7dd70a0".data) =
    .ok (0x7fffb7dd71d6, "call".data, "0x7fffb7dd70a0".data) := by rfl
example : _addr_from_operand ("0x7fffb7dd70a0".data) = some 0x7fffb7dd70a0 := by decide
example : _addr_from_operand ("rax".data) = none := by decide
example : _step_like false okHost =
    { result := .ok, candidates := [0x1001], created := [0x1001],
      deleted := [0x1001], resumed := true, stopAddr := some 0x1001,
      rejected := none } := by rfl

/-! ## General list lemmas -/

theorem takeWhile_eq_self_of (p : Char → Bool) (xs : List Char)
    (h : ∀ c ∈ xs, p c = true) : xs.takeWhile p = xs := by
  induction xs with
  | nil => rfl
  | cons x r ih =>
    rw [List.takeWhile_cons_of_pos (h x (by simp))]
    rw [ih (fun c hc => h c (by simp [hc]))]

theorem dropWhile_eq_nil_of (p : Char → Bool) (xs : List Char)
    (h : ∀ c ∈ xs, p c = true) : xs.dropWhile p = [] := by
  induction xs with
  | nil => rfl
  | cons x r ih =>
    rw [List.dropWhile_cons_of_pos (h x (by simp))]
    exact ih (fun c hc => h c (by simp [hc]))

theorem takeWhile_append_cons (p : Char → Bool) (xs : List Char) (y : Char)
    (ys : List Char) (h1 : ∀ c ∈ xs, p c = true) (h2 : p y = false) :
    (xs ++ y :: ys).takeWhile p = xs := by
  have h2x : ¬ p y = true := by simp [h2]
  induction xs with
  | nil => simp [List.takeWhile_cons_of_neg h2x]
  | cons x r ih =>
    rw [List.cons_append, List.takeWhile_cons_of_pos (h1 x (by simp))]
    rw [ih (fun c hc => h1 c (by simp [hc]))]

theorem dropWhile_append_cons (p : Char → Bool) (xs : List Char) (y : Char)
    (ys : List Char) (h1 : ∀ c ∈ xs, p c = true) (h2 : p y = false) :
    (xs ++ y :: ys).dropWhile p = y :: ys := by
  have h2x : ¬ p y = true := by simp [h2]
  induction xs with
  | nil => simp [List.dropWhile_cons_of_neg h2x]
  | cons x r ih =>
    rw [List.cons_append, List.dropWhile_cons_of_pos (h1 x (by simp))]
    exact ih (fun c hc => h1 c (by simp [hc]))

theorem pyStartswith_exists (s p : List Char) (h : pyStartswith s p = true) :
    ∃ t, s = p ++ t := by
  induction p generalizing s with
  | nil => exact ⟨s, rfl⟩
  | cons q ps ih =>
    cases s with
    | nil => simp [pyStartswith] at h
    | cons c cs =>
      simp only [pyStartswith, Bool.and_eq_true, beq_iff_eq] at h
      obtain ⟨t, ht⟩ := ih cs h.2
      exact ⟨t, by simp [h.1, ht]⟩

theorem dropTrailWS_eq_self (l : List Char)
    (h : ∀ x, l.getLast? = some x → isWS x = false) : dropTrailWS l = l := by
  unfold dropTrailWS
  cases hr : l.reverse with
  | nil =>
    have : l = [] := by simpa using congrArg List.reverse hr
    simp [this]
  | cons x r =>
    have hx : isWS x = false := by
      apply h
      rw [← List.head?_reverse, hr]
      rfl
    rw [List.dropWhile_cons_of_neg (by simp [hx]), ← hr, List.reverse_reverse]

theorem pyStrip_eq_self (l : List Char)
    (hh : ∀ x, l.head? = some x → isWS x = false)
    (hl : ∀ x, l.getLast? = some x → isWS x = false) : pyStrip l = l := by
  unfold pyStrip
  cases l with
  | nil => rfl
  | cons c r =>
    rw [List.dropWhile_cons_of_neg (by simp [hh c rfl])]
    exact dropTrailWS_eq_self _ hl

/-! ## Decoder lemmas (towards C7 and C8) -/

theorem hexDigit_ne_colon (c : Char) (h : isHexDigit c = true) : c ≠ ':' := by
  intro he
  rw [he] at h
  exact absurd h (by decide)

theorem tryHexAt_line (ds rest : List Char) (hds : ds ≠ [])
    (hhex : ∀ c ∈ ds, isHexDigit c = true) :
    tryHexAt ('0' :: 'x' :: (ds ++ ':' :: rest)) = some ('0' :: 'x' :: ds, ':' :: rest) := by
  cases ds with
  | nil => exact absurd rfl hds
  | cons d dt =>
    have ht : ((d :: dt) ++ ':' :: rest).takeWhile isHexDigit = d :: dt :=
      takeWhile_append_cons _ _ _ _ hhex (by decide)
    have hd : ((d :: dt) ++ ':' :: rest).dropWhile isHexDigit = ':' :: rest :=
      dropWhile_append_cons _ _ _ _ hhex (by decide)
    simp only [List.cons_append] at ht hd
    simp [tryHexAt, ht, hd, hhex d (by simp)]

theorem searchHex_coreLine (ds mnem op : List Char) (hds : ds ≠ [])
    (hhex : ∀ c ∈ ds, isHexDigit c = true) :
    searchHex (coreLine ds mnem op) =
      some ([], '0' :: 'x' :: ds, ':' :: afterColon mnem op) := by
  have h1 := tryHexAt_line ds (afterColon mnem op) hds hhex
  simp only [coreLine]
  rw [show ':' :: ' ' :: (mnem ++ opPart op) = ':' :: afterColon mnem op from rfl]
  simp [searchHex, h1]

theorem splitFirstColon_append (pre post : List Char) (h : ∀ c ∈ pre, c ≠ ':') :
    splitFirstColon (pre ++ ':' :: post) = some (pre, post) := by
  induction pre with
  | nil => simp [splitFirstColon]
  | cons c r ih =>
    have hc : c ≠ ':' := h c (by simp)
    rw [List.cons_append]
    simp only [splitFirstColon, if_neg hc]
    rw [ih (fun x hx => h x (by simp [hx]))]

theorem splitFirstColon_coreLine (ds mnem op : List Char)
    (hhex : ∀ c ∈ ds, isHexDigit c = true) :
    splitFirstColon (coreLine ds mnem op) =
      some ('0' :: 'x' :: ds, afterColon mnem op) := by
  have hpre : ∀ c ∈ '0' :: 'x' :: ds, c ≠ ':' := by
    intro c hc
    rcases hc with _ | ⟨_, hc⟩
    · decide
    · rcases hc with _ | ⟨_, hc⟩
      · decide
      · exact hexDigit_ne_colon c (hhex c hc)
  have := splitFirstColon_append ('0' :: 'x' :: ds) (afterColon mnem op) hpre
  simpa [coreLine, afterColon] using this

theorem body_last (mnem op : List Char)
    (hmw : ∀ c ∈ mnem, isWS c = false)
    (hopl : ∀ x, op.getLast? = some x → isWS x = false) :
    ∀ x, (mnem ++ opPart op).getLast? = some x → isWS x = false := by
  intro x hx
  cases hop : op with
  | nil =>
    rw [hop] at hx
    have h0 : opPart ([] : List Char) = [] := by simp [opPart]
    rw [h0, List.append_nil] at hx
    exact hmw x (List.mem_of_mem_getLast? (by simp [hx]))
  | cons o ot =>
    rw [hop] at hx
    have h1 : opPart (o :: ot) = ' ' :: o :: ot := by simp [opPart]
    rw [h1, List.getLast?_append_of_ne_nil _ (by simp)] at hx
    have h2 : (' ' :: o :: ot).getLast? = (o :: ot).getLast? := by
      rw [show (' ' :: o :: ot) = [' '] ++ (o :: ot) from rfl,
        List.getLast?_append_of_ne_nil _ (by simp)]
    rw [h2] at hx
    exact hopl x (by rw [hop]; exact hx)

theorem coreLine_last (ds mnem op : List Char) (hm : mnem ≠ [])
    (hmw : ∀ c ∈ mnem, isWS c = false)
    (hopl : ∀ x, op.getLast? = some x → isWS x = false) :
    ∀ x, (coreLine ds mnem op).getLast? = some x → isWS x = false := by
  intro x hx
  have hb : mnem ++ opPart op ≠ [] := by
    cases mnem with
    | nil => exact absurd rfl hm
    | cons m mt => simp
  rw [show coreLine ds mnem op =
      ('0' :: 'x' :: (ds ++ [':', ' '])) ++ (mnem ++ opPart op) by
    simp [coreLine]] at hx
  rw [List.getLast?_append_of_ne_nil _ hb] at hx
  exact body_last mnem op hmw hopl x hx

theorem pyStrip_coreLine (ds mnem op : List Char) (hm : mnem ≠ [])
    (hmw : ∀ c ∈ mnem, isWS c = false)
    (hopl : ∀ x, op.getLast? = some x → isWS x = false) :
    pyStrip (coreLine ds mnem op) = coreLine ds mnem op := by
  apply pyStrip_eq_self
  · intro x hx
    simp only [coreLine, List.head?_cons, Option.some.injEq] at hx
    rw [← hx]
    decide
  · exact coreLine_last ds mnem op hm hmw hopl

theorem clean_mkInsnLine (marker : Bool) (ds mnem op : List Char)
    (hm : mnem ≠ []) (hmw : ∀ c ∈ mnem, isWS c = false)
    (hopl : ∀ x, op.getLast? = some x → isWS x = false) :
    _clean_line (mkInsnLine marker ds mnem op) = coreLine ds mnem op := by
  have hstrip := pyStrip_coreLine ds mnem op hm hmw hopl
  cases marker with
  | false =>
    have h0 : mkInsnLine false ds mnem op = coreLine ds mnem op := by
      simp [mkInsnLine]
    have hsw : pyStartswith (coreLine ds mnem op) ("=>".data) = false := by
      have e0 : ('0' == '=') = false := by decide
      simp [coreLine, pyStartswith, e0]
    simp [_clean_line, h0, hstrip, hsw]
  | true =>
    have h0 : mkInsnLine true ds mnem op = '=' :: '>' :: ' ' :: coreLine ds mnem op := by
      simp [mkInsnLine]
    have hcl_ne : coreLine ds mnem op ≠ [] := by simp [coreLine]
    have hstrip2 : pyStrip ('=' :: '>' :: ' ' :: coreLine ds mnem op) =
        '=' :: '>' :: ' ' :: coreLine ds mnem op := by
      apply pyStrip_eq_self
      · intro x hx
        simp only [List.head?_cons, Option.some.injEq] at hx
        rw [← hx]
        decide
      · intro x hx
        rw [show ('=' :: '>' :: ' ' :: coreLine ds mnem op) =
            ['=', '>', ' '] ++ coreLine ds mnem op from rfl,
          List.getLast?_append_of_ne_nil _ hcl_ne] at hx
        exact coreLine_last ds mnem op hm hmw hopl x hx
    have hsw : pyStartswith ('=' :: '>' :: ' ' :: coreLine ds mnem op) ("=>".data) = true := by
      simp [pyStartswith]
    have hdrop : ('=' :: '>' :: ' ' :: coreLine ds mnem op).drop 2 =
        ' ' :: coreLine ds mnem op := rfl
    have hstrip3 : pyStrip (' ' :: coreLine ds mnem op) = coreLine ds mnem op := by
      unfold pyStrip
      rw [List.dropWhile_cons_of_pos (by decide)]
      have hcl_head : (coreLine ds mnem op).dropWhile isWS = coreLine ds mnem op := by
        simp only [coreLine]
        rw [List.dropWhile_cons_of_neg (by decide)]
      rw [hcl_head]
      exact dropTrailWS_eq_self _ (coreLine_last ds mnem op hm hmw hopl)
    simp [_clean_line, h0, hstrip2, hsw, hdrop, hstrip3]

theorem pyInt16_prefixed (r : List Char) : pyInt16 ('0' :: 'x' :: r) = hexVal r := rfl

/-- C7: decoding a line of the documented shape yields the hex address value,
    the first token after the colon, and the (possibly empty) operand text. -/
theorem c7_decode_shape (marker : Bool) (ds mnem op : List Char)
    (hds : ds ≠ []) (hhex : ∀ c ∈ ds, isHexDigit c = true)
    (hm : mnem ≠ []) (hmw : ∀ c ∈ mnem, isWS c = false)
    (hoph : ∀ x, op.head? = some x → isWS x = false)
    (hopl : ∀ x, op.getLast? = some x → isWS x = false) :
    _parse_insn (mkInsnLine marker ds mnem op) = .ok (hexVal ds, mnem, op) := by
  obtain ⟨m0, mt, rfl⟩ : ∃ m0 mt, mnem = m0 :: mt := by
    cases mnem with
    | nil => exact absurd rfl hm
    | cons a b => exact ⟨a, b, rfl⟩
  have hclean := clean_mkInsnLine marker ds (m0 :: mt) op hm hmw hopl
  have hsearch := searchHex_coreLine ds (m0 :: mt) op hds hhex
  have hsplit := splitFirstColon_coreLine ds (m0 :: mt) op hhex
  have hbody_head : isWS m0 = false := hmw m0 (by simp)
  have hstrip_after : pyStrip (afterColon (m0 :: mt) op) = (m0 :: mt) ++ opPart op := by
    unfold afterColon pyStrip
    rw [List.dropWhile_cons_of_pos (by decide)]
    rw [show ((m0 :: mt) ++ opPart op).dropWhile isWS = (m0 :: mt) ++ opPart op from by
      rw [List.cons_append, List.dropWhile_cons_of_neg (by simp [hbody_head])]]
    exact dropTrailWS_eq_self _ (body_last _ op hmw hopl)
  simp only [_parse_insn, hclean, hsearch, hsplit, hstrip_after, pyInt16_prefixed]
  cases hop : op with
  | nil =>
    have h0 : opPart ([] : List Char) = [] := by simp [opPart]
    subst hop
    rw [h0, List.append_nil]
    have h1 : (m0 :: mt).takeWhile (fun c => !isWS c) = m0 :: mt :=
      takeWhile_eq_self_of _ _ (fun c hc => by simp [hmw c hc])
    have h2 : (m0 :: mt).dropWhile (fun c => !isWS c) = [] :=
      dropWhile_eq_nil_of _ _ (fun c hc => by simp [hmw c hc])
    simp [h1, h2, pyStrip, dropTrailWS]
  | cons o ot =>
    subst hop
    have h0 : opPart (o :: ot) = ' ' :: o :: ot := by simp [opPart]
    rw [h0]
    have h1 : ((m0 :: mt) ++ ' ' :: o :: ot).takeWhile (fun c => !isWS c) = m0 :: mt :=
      takeWhile_append_cons _ _ _ _ (fun c hc => by simp [hmw c hc]) (by decide)
    have h2 : ((m0 :: mt) ++ ' ' :: o :: ot).dropWhile (fun c => !isWS c) = ' ' :: o :: ot :=
      dropWhile_append_cons _ _ _ _ (fun c hc => by simp [hmw c hc]) (by decide)
    have h3 : (' ' :: o :: ot).dropWhile isWS = o :: ot := by
      rw [List.dropWhile_cons_of_pos (by decide),
        List.dropWhile_cons_of_neg (by simp [hoph o rfl])]
    have h4 : pyStrip (o :: ot) = o :: ot := pyStrip_eq_self _ hoph hopl
    simp only [List.cons_append] at h1 h2
    simp [h1, h2, h3, h4]

/-! ## Search invariance under cleaning (towards C8) -/

theorem ws_cases (c : Char) (h : isWS c = true) :
    c = ' ' ∨ c = '\t' ∨ c = '\n' ∨ c = '\r' := by
  simpa [isWS, or_assoc] using h

theorem ws_ne_zero (c : Char) (h : isWS c = true) : c ≠ '0' := by
  rcases ws_cases c h with h1 | h1 | h1 | h1 <;> simp [h1]

theorem ws_ne_x (c : Char) (h : isWS c = true) : c ≠ 'x' := by
  rcases ws_cases c h with h1 | h1 | h1 | h1 <;> simp [h1]

theorem ws_not_hex (c : Char) (h : isWS c = true) : isHexDigit c = false := by
  rcases ws_cases c h with h1 | h1 | h1 | h1 <;> simp [h1] <;> decide

theorem tryHexAt_cons_ne_zero (c : Char) (cs : List Char) (hc : c ≠ '0') :
    tryHexAt (c :: cs) = none := by
  cases cs with
  | nil => rfl
  | cons c1 r =>
    simp only [tryHexAt]
    rw [if_neg (fun h => hc h.1)]

theorem searchHex_cons_none (c : Char) (cs : List Char)
    (h : tryHexAt (c :: cs) = none) :
    (searchHex (c :: cs)).isSome = (searchHex cs).isSome := by
  simp only [searchHex, h]
  cases hs : searchHex cs with
  | none => rfl
  | some v =>
    obtain ⟨b, m, a⟩ := v
    rfl

theorem searchHex_all_ne_zero (l : List Char) (h : ∀ c ∈ l, c ≠ '0') :
    searchHex l = none := by
  induction l with
  | nil => rfl
  | cons c cs ih =>
    have h1 : tryHexAt (c :: cs) = none := tryHexAt_cons_ne_zero c cs (h c (by simp))
    have h2 : searchHex cs = none := ih (fun x hx => h x (by simp [hx]))
    simp [searchHex, h1, h2]

theorem searchHex_dropWhileWS (l : List Char) :
    (searchHex (l.dropWhile isWS)).isSome = (searchHex l).isSome := by
  induction l with
  | nil => rfl
  | cons c cs ih =>
    by_cases hw : isWS c = true
    · rw [List.dropWhile_cons_of_pos hw, ih,
        searchHex_cons_none c cs (tryHexAt_cons_ne_zero c cs (ws_ne_zero c hw))]
    · rw [List.dropWhile_cons_of_neg hw]

theorem takeWhile_append_nohex (rest suf : List Char)
    (hs : ∀ c ∈ suf, isHexDigit c = false) :
    (rest ++ suf).takeWhile isHexDigit = rest.takeWhile isHexDigit := by
  induction rest with
  | nil =>
    cases suf with
    | nil => rfl
    | cons s ss =>
      simp only [List.nil_append]
      rw [List.takeWhile_cons_of_neg (by simp [hs s (by simp)])]
      rfl
  | cons r rt ih =>
    by_cases hr : isHexDigit r = true
    · rw [List.cons_append, List.takeWhile_cons_of_pos hr,
        List.takeWhile_cons_of_pos hr, ih]
    · rw [List.cons_append, List.takeWhile_cons_of_neg hr,
        List.takeWhile_cons_of_neg hr]

theorem tryHexAt_append_ws (l suf : List Char) (hs : ∀ c ∈ suf, isWS c = true) :
    (tryHexAt (l ++ suf)).isSome = (tryHexAt l).isSome := by
  cases l with
  | nil =>
    simp only [List.nil_append]
    cases suf with
    | nil => rfl
    | cons s ss =>
      rw [tryHexAt_cons_ne_zero s ss (ws_ne_zero s (hs s (by simp)))]
      rfl
  | cons c0 l1 =>
    cases l1 with
    | nil =>
      cases suf with
      | nil => rfl
      | cons s ss =>
        have hx : s ≠ 'x' := ws_ne_x s (hs s (by simp))
        simp only [List.cons_append, List.nil_append, tryHexAt]
        rw [if_neg (fun h => hx h.2)]
    | cons c1 rest =>
      have ht : (rest ++ suf).takeWhile isHexDigit = rest.takeWhile isHexDigit :=
        takeWhile_append_nohex rest suf (fun c hc => ws_not_hex c (hs c hc))
      simp only [List.cons_append, tryHexAt, ht]
      by_cases hc : c0 = '0' ∧ c1 = 'x'
      · rw [if_pos hc, if_pos hc]
        by_cases he : (rest.takeWhile isHexDigit).isEmpty = true
        · rw [if_pos he, if_pos he]
        · rw [if_neg he, if_neg he]
          rfl
      · rw [if_neg hc, if_neg hc]

theorem searchHex_append_ws (body suf : List Char)
    (hs : ∀ c ∈ suf, isWS c = true) :
    (searchHex (body ++ suf)).isSome = (searchHex body).isSome := by
  induction body with
  | nil =>
    simp only [List.nil_append]
    rw [searchHex_all_ne_zero suf (fun c hc => ws_ne_zero c (hs c hc))]
    rfl
  | cons c cs ih =>
    have hiso : (tryHexAt (c :: cs ++ suf)).isSome = (tryHexAt (c :: cs)).isSome :=
      tryHexAt_append_ws (c :: cs) suf hs
    cases htc : tryHexAt (c :: cs) with
    | some v =>
      rw [htc] at hiso
      cases htc2 : tryHexAt (c :: cs ++ suf) with
      | none => rw [htc2] at hiso; exact absurd hiso (by simp)
      | some w =>
        obtain ⟨m, a⟩ := v
        obtain ⟨m2, a2⟩ := w
        rw [List.cons_append]
        simp only [List.cons_append] at htc2
        simp [searchHex, htc, htc2]
    | none =>
      rw [htc] at hiso
      cases htc2 : tryHexAt (c :: cs ++ suf) with
      | some w => rw [htc2] at hiso; exact absurd hiso.symm (by simp)
      | none =>
        rw [List.cons_append]
        simp only [List.cons_append] at htc2
        rw [searchHex_cons_none c (cs ++ suf) htc2, searchHex_cons_none c cs htc]
        exact ih

theorem dropTrailWS_decomposition (l : List Char) :
    l = dropTrailWS l ++ (l.reverse.takeWhile isWS).reverse := by
  unfold dropTrailWS
  rw [← List.reverse_append, List.takeWhile_append_dropWhile, List.reverse_reverse]

theorem searchHex_dropTrailWS (l : List Char) :
    (searchHex (dropTrailWS l)).isSome = (searchHex l).isSome := by
  conv_rhs => rw [dropTrailWS_decomposition l]
  rw [searchHex_append_ws]
  intro c hc
  rw [List.mem_reverse] at hc
  exact List.mem_takeWhile_imp hc

theorem hasHex_pyStrip (l : List Char) :
    hasHexLiteral (pyStrip l) = hasHexLiteral l := by
  unfold hasHexLiteral pyStrip
  rw [searchHex_dropTrailWS, searchHex_dropWhileWS]

theorem hasHex_clean (line : List Char) :
    hasHexLiteral (_clean_line line) = hasHexLiteral line := by
  unfold _clean_line
  by_cases hsw : pyStartswith (pyStrip line) ("=>".data) = true
  · obtain ⟨t, ht⟩ := pyStartswith_exists _ _ hsw
    simp only [hsw, if_true]
    have hd : (pyStrip line).drop 2 = t := by rw [ht]; rfl
    rw [hd, hasHex_pyStrip t]
    have h1 : hasHexLiteral ('>' :: t) = hasHexLiteral t := by
      unfold hasHexLiteral
      exact searchHex_cons_none _ _ (tryHexAt_cons_ne_zero _ _ (by decide))
    have h2 : hasHexLiteral ('=' :: '>' :: t) = hasHexLiteral ('>' :: t) := by
      unfold hasHexLiteral
      exact searchHex_cons_none _ _ (tryHexAt_cons_ne_zero _ _ (by decide))
    have h3 : pyStrip line = '=' :: '>' :: t := by simpa using ht
    rw [← hasHex_pyStrip line, h3, h2, h1]
  · simp only [hsw, if_false]
    exact hasHex_pyStrip line

theorem isOkB_parse (line : List Char) :
    isOkB (_parse_insn line) = hasHexLiteral line := by
  rw [← hasHex_clean line]
  unfold _parse_insn
  cases hs : searchHex (_clean_line line) with
  | none => simp [isOkB, hasHexLiteral, hs]
  | some v =>
    obtain ⟨b, m, a⟩ := v
    simp only [hs, hasHexLiteral, Option.isSome_some]
    cases hsp : splitFirstColon (_clean_line line) with
    | none =>
      by_cases he : (pyStrip a).isEmpty = true <;> simp [isOkB, he]
    | some w =>
      obtain ⟨p, r⟩ := w
      by_cases he : (pyStrip r).isEmpty = true <;> simp [isOkB, he]

/-! ## Step-machinery lemmas -/

theorem _disas2_short (out : List (List Char))
    (h : (out.filter (fun l => !(pyStrip l).isEmpty)).length < 2) :
    _disas2 out = .error "x/2i $pc returned < 2 lines" := by
  unfold _disas2
  cases hf : out.filter (fun l => !(pyStrip l).isEmpty) with
  | nil => rfl
  | cons a t =>
    cases t with
    | nil => rfl
    | cons b t2 =>
      rw [hf] at h
      simp at h
      omega

theorem deleteBpsGo_id (h : IterHost) (bps : List Nat) :
    ∀ i, deleteBpsGo h i bps = bps := by
  induction bps with
  | nil => intro i; rfl
  | cons a rest ih =>
    intro i
    cases htd : tryDelete h i a <;> simp [deleteBpsGo, htd, ih]

theorem _delete_bps_eq (h : IterHost) (bps : List Nat) : _delete_bps h bps = bps :=
  deleteBpsGo_id h bps 0

theorem armAndRun_trace (h : IterHost) (addrs : List (Option Nat)) :
    ((armAndRun h addrs).result = .armErr ∧ (armAndRun h addrs).deleted = [] ∧
      (armAndRun h addrs).resumed = false ∧ (armAndRun h addrs).rejected.isSome = true) ∨
    (((armAndRun h addrs).result = .ok ∨ (armAndRun h addrs).result = .contErr) ∧
      (armAndRun h addrs).deleted = (armAndRun h addrs).created ∧
      (armAndRun h addrs).resumed = true ∧ (armAndRun h addrs).rejected = none) := by
  unfold armAndRun
  rcases harm : _set_temp_bps h addrs with ⟨created, rej⟩
  cases rej with
  | none =>
    cases hc : h.contRes with
    | stopped sa => exact Or.inr ⟨Or.inl rfl, _delete_bps_eq h created, rfl, rfl⟩
    | raised => exact Or.inr ⟨Or.inr rfl, _delete_bps_eq h created, rfl, rfl⟩
  | some a => exact Or.inl ⟨rfl, rfl, rfl, rfl⟩

theorem armAndRun_candidates (h : IterHost) (addrs : List (Option Nat)) :
    (armAndRun h addrs).candidates = addrs.filterMap id := by
  unfold armAndRun
  rcases harm : _set_temp_bps h addrs with ⟨created, rej⟩
  cases rej with
  | none => cases hc : h.contRes <;> rfl
  | some a => rfl

theorem step_like_cases (noc : Bool) (h : IterHost) :
    (∃ m, _step_like noc h = parseTrace m) ∨
    (∃ mnem op nxt, _step_like noc h = armAndRun h (classify noc h mnem op nxt)) := by
  rcases hd : _disas2 h.disas with m | ⟨l0, l1⟩
  · refine Or.inl ⟨m, ?_⟩
    unfold _step_like
    simp only [hd]
  · rcases hp0 : _parse_insn l0 with m | ⟨a0, mnem, op⟩
    · refine Or.inl ⟨m, ?_⟩
      unfold _step_like
      simp only [hd, hp0]
    · rcases hp1 : _parse_insn l1 with m | ⟨nxt, m1, o1⟩
      · refine Or.inl ⟨m, ?_⟩
        unfold _step_like
        simp only [hd, hp0, hp1]
      · refine Or.inr ⟨mnem, op, nxt, ?_⟩
        unfold _step_like
        simp only [hd, hp0, hp1]

theorem candAddrs_ne_nil (noc : Bool) (h : IterHost) (mnem op : List Char)
    (nxt : Nat) : candAddrs noc h mnem op nxt ≠ [] := by
  simp only [candAddrs, classify]
  by_cases h1 : pyStartswith (pyLower mnem) ("ret".data) = true
  · rw [if_pos h1]
    cases hr : _read_u64 h rspExpr <;> simp
  · rw [if_neg h1]
    by_cases h2 : pyStartswith (pyLower mnem) ("call".data) = true
    · rw [if_pos h2]
      cases noc with
      | true => simp
      | false =>
        simp only [Bool.false_eq_true, if_false]
        cases h3 : _addr_from_operand op <;> simp
    · rw [if_neg h2]
      by_cases h4 : pyStartswith (pyLower mnem) ("j".data) = true
      · rw [if_pos h4]
        by_cases h5 : (pyLower mnem == "jmp".data || pyLower mnem == "jmpq".data) = true
        · rw [if_pos h5]
          cases h6 : _addr_from_operand op <;> simp
        · rw [if_neg h5]
          cases h6 : _addr_from_operand op <;> simp
      · rw [if_neg h4]
        simp

theorem runSteps_ok_spec (noc : Bool) (hosts : Nat → IterHost) :
    ∀ (n s : Nat), (∀ i, i < n → (_step_like noc (hosts (s + i))).result = .ok) →
    (runSteps noc hosts n s).1.length = n ∧ (runSteps noc hosts n s).2 = none := by
  intro n
  induction n with
  | zero => exact fun s _ => ⟨rfl, rfl⟩
  | succ k ih =>
    intro s h
    have h0 : (_step_like noc (hosts s)).result = .ok := by
      have := h 0 (Nat.succ_pos k)
      simpa using this
    have hrest := ih (s + 1) (fun i hi => by
      have hx := h (i + 1) (Nat.succ_lt_succ hi)
      have e : s + (i + 1) = s + 1 + i := by omega
      rw [e] at hx
      exact hx)
    simp only [runSteps, h0]
    exact ⟨by simp [hrest.1], hrest.2⟩

/-! ## Claims C1, C2, C10: breakpoint lifecycle -/

/-- C1 counterexample: when the host rejects the second of two candidate
    breakpoints, the iteration aborts with one breakpoint created and none
    destroyed, and the abort is not a decode failure. -/
theorem c1_counterexample : ¬ C1Prop := by
  intro hp
  have e1 : _step_like false armFailHost =
      { result := .armErr, candidates := [0x1005, 0x3000], created := [0x1005],
        deleted := [], resumed := false, stopAddr := none,
        rejected := some 0x3000 } := by rfl
  rcases hp false armFailHost with h1 | ⟨m, hm, hc⟩
  · rw [e1] at h1
    simp at h1
  · rw [e1] at hm
    simp at hm

/-- C1 amended: an iteration that resumes (with `continue` returning or
    raising) has deletion attempted for every created breakpoint; a decode
    failure arms none; but an iteration aborting inside the arming phase
    leaves its already-created breakpoints without any deletion attempt. -/
theorem c1_amended (noc : Bool) (h : IterHost) :
    ((_step_like noc h).result = .ok ∨ (_step_like noc h).result = .contErr →
      (_step_like noc h).deleted = (_step_like noc h).created) ∧
    (∀ m, (_step_like noc h).result = .parseErr m →
      (_step_like noc h).created = [] ∧ (_step_like noc h).deleted = []) ∧
    ((_step_like noc h).result = .armErr → (_step_like noc h).deleted = []) := by
  rcases step_like_cases noc h with ⟨m, hm⟩ | ⟨mnem, op, nxt, he⟩
  · rw [hm]
    refine ⟨?_, ?_, ?_⟩ <;> simp [parseTrace]
  · rw [he]
    rcases armAndRun_trace h (classify noc h mnem op nxt) with
      ⟨h1, h2, h3, h4⟩ | ⟨h1, h2, h3, h4⟩
    · refine ⟨?_, ?_, ?_⟩
      · intro hr
        rcases hr with hr | hr <;> rw [h1] at hr <;> simp at hr
      · intro m hm2
        rw [h1] at hm2
        simp at hm2
      · intro _
        exact h2
    · refine ⟨fun _ => h2, ?_, ?_⟩
      · intro m hm2
        rcases h1 with h1 | h1 <;> rw [h1] at hm2 <;> simp at hm2
      · intro hr
        rcases h1 with h1 | h1 <;> rw [h1] at hr <;> simp at hr

theorem c1_amended_witness :
    (_step_like false okHost).deleted = (_step_like false okHost).created :=
  (c1_amended false okHost).1 (Or.inl (by rfl))

/-- C2 counterexample: the host rejects candidate `0x4000` (one of two);
    the code neither drops it and resumes with the remaining candidate, nor
    is the remaining set empty — it just aborts. -/
theorem c2_counterexample : ¬ C2Prop := by
  intro hp
  have e1 : _step_like false armFail2Host =
      { result := .armErr, candidates := [0x2006, 0x4000], created := [0x2006],
        deleted := [], resumed := false, stopAddr := none,
        rejected := some 0x4000 } := by rfl
  have hres : (_step_like false armFail2Host).resumed = false := by rw [e1]
  rcases hp false armFail2Host 0x4000 (by rw [e1]) with h | h
  · simp [h.1] at hres
  · have hflt : (_step_like false armFail2Host).candidates.filter
        (fun x => x != 0x4000) = [0x2006] := by
      rw [e1]
      rfl
    rw [h.1] at hflt
    simp at hflt

/-- C2 amended: a host rejection of a candidate's breakpoint creation makes
    the iteration abort with the propagated arming error, never resuming;
    moreover, only decode-aborted iterations have an empty candidate set, so
    the code never resumes with no breakpoints armed. -/
theorem c2_amended (noc : Bool) (h : IterHost) :
    ((_step_like noc h).rejected.isSome = true →
      (_step_like noc h).result = .armErr ∧ (_step_like noc h).resumed = false) ∧
    ((_step_like noc h).candidates = [] →
      ∃ m, (_step_like noc h).result = .parseErr m) := by
  rcases step_like_cases noc h with ⟨m, hm⟩ | ⟨mnem, op, nxt, he⟩
  · rw [hm]
    refine ⟨?_, ?_⟩
    · intro hx
      simp [parseTrace] at hx
    · intro _
      exact ⟨m, rfl⟩
  · rw [he]
    refine ⟨?_, ?_⟩
    · rcases armAndRun_trace h (classify noc h mnem op nxt) with
        ⟨h1, h2, h3, h4⟩ | ⟨h1, h2, h3, h4⟩
      · exact fun _ => ⟨h1, h3⟩
      · intro hx
        rw [h4] at hx
        simp at hx
    · intro hc
      rw [armAndRun_candidates] at hc
      exact absurd hc (candAddrs_ne_nil noc h mnem op nxt)

theorem c2_amended_witness :
    ((_step_like false armFail2Host).result = .armErr ∧
      (_step_like false armFail2Host).resumed = false) ∧
    (∃ m, (_step_like false shortHost).result = .parseErr m) :=
  ⟨(c2_amended false armFail2Host).1 (by rfl),
   (c2_amended false shortHost).2 (by rfl)⟩

/-- C10 counterexample: an iteration that reaches the arming phase but whose
    second breakpoint creation raises gets no deletion attempt for the one
    breakpoint it did create. -/
theorem c10_counterexample : ¬ C10Prop := by
  intro hp
  have e1 : _step_like false armFail3Host =
      { result := .armErr, candidates := [0x5002, 0x6000], created := [0x5002],
        deleted := [], resumed := false, stopAddr := none,
        rejected := some 0x6000 } := by rfl
  have := hp false armFail3Host (by rw [e1]; decide)
  rw [e1] at this
  simp at this

/-- C10 amended: every iteration that executes resume-and-wait (whether
    `continue` returns or raises) attempts deletion of every breakpoint it
    created, and `_delete_bps` attempts every deletion while swallowing
    deletion failures (no exception escapes the cleanup); but an iteration
    whose arming phase itself raises part-way makes no deletion attempt for
    the breakpoints created before the failure. -/
theorem c10_amended (noc : Bool) (h : IterHost) :
    ((_step_like noc h).resumed = true →
      (_step_like noc h).deleted = (_step_like noc h).created) ∧
    (∀ bps, _delete_bps h bps = bps) := by
  constructor
  · rcases step_like_cases noc h with ⟨m, hm⟩ | ⟨mnem, op, nxt, he⟩
    · rw [hm]
      intro hx
      simp [parseTrace] at hx
    · rw [he]
      rcases armAndRun_trace h (classify noc h mnem op nxt) with
        ⟨h1, h2, h3, h4⟩ | ⟨h1, h2, h3, h4⟩
      · intro hx
        simp [h3] at hx
      · exact fun _ => h2
  · exact _delete_bps_eq h

theorem c10_amended_witness :
    (_step_like false raisedHost).deleted = (_step_like false raisedHost).created :=
  (c10_amended false raisedHost).1 (by rfl)

/-! ## Claim C3: repetition behaviour -/

/-- C3 counterexample: with count 2, the first repetition stops at `0x9999`,
    unrelated to its only candidate `0x1001`, yet both repetitions are
    performed. -/
theorem c3_counterexample : ¬ C3Prop := by
  intro hp
  have e1 : (runSteps false (fun _ => unrelHost) 2 0).1.length = 2 := by rfl
  have hi : 0 < (runSteps false (fun _ => unrelHost) 2 0).1.length := by
    rw [e1]
    decide
  have e2 : ((runSteps false (fun _ => unrelHost) 2 0).1.get ⟨0, hi⟩).stopAddr =
      some 0x9999 := by rfl
  have e3 : ((runSteps false (fun _ => unrelHost) 2 0).1.get ⟨0, hi⟩).candidates =
      [0x1001] := by rfl
  have h2 := hp false (fun _ => unrelHost) 2 0 0x9999 hi e2 (by rw [e3]; decide)
  rw [e1] at h2
  simp at h2

/-- C3 amended: the loop never inspects the stop cause; as long as no
    iteration raises, all `count` repetitions are performed (an unrelated
    early stop is treated like any completed step), and no error is
    surfaced. -/
theorem c3_amended (noc : Bool) (hosts : Nat → IterHost) (n : Nat)
    (hok : ∀ i, i < n → (_step_like noc (hosts i)).result = .ok) :
    (runSteps noc hosts n 0).1.length = n ∧ (runSteps noc hosts n 0).2 = none :=
  runSteps_ok_spec noc hosts n 0 (fun i hi => by simpa using hok i hi)

theorem c3_amended_witness :
    (runSteps false (fun _ => unrelHost) 2 0).1.length = 2 ∧
    (runSteps false (fun _ => unrelHost) 2 0).2 = none :=
  c3_amended false (fun _ => unrelHost) 2 (fun i _ => by rfl)

/-! ## Claims C4-C6: the control-flow classifier -/

theorem pyStartswith_cons_false (c : Char) (cs ps : List Char) (p : Char)
    (h : (c == p) = false) : pyStartswith (c :: cs) (p :: ps) = false := by
  simp [pyStartswith, h]

/-- C4: a return-class mnemonic (case-insensitive), in either mode, yields
    exactly the one address read from the top of the call stack, or exactly
    the fallthrough when the read fails. -/
theorem c4_ret_classifier (noc : Bool) (h : IterHost) (mnem op : List Char)
    (nxt : Nat) (hr : pyStartswith (pyLower mnem) ("ret".data) = true) :
    (∀ ra, _read_u64 h rspExpr = some ra → candAddrs noc h mnem op nxt = [ra]) ∧
    (_read_u64 h rspExpr = none → candAddrs noc h mnem op nxt = [nxt]) := by
  constructor
  · intro ra hra
    simp [candAddrs, classify, hr, hra]
  · intro hna
    simp [candAddrs, classify, hr, hna]


theorem c4_ret_classifier_witness :
    candAddrs false retHost ("ret".data) [] 0x42 = [0x7777] ∧
    candAddrs true okHost ("RET".data) [] 0x42 = [0x42] :=
  ⟨(c4_ret_classifier false retHost ("ret".data) [] 0x42 (by decide)).1 0x7777 (by rfl),
   (c4_ret_classifier true okHost ("RET".data) [] 0x42 (by decide)).2 (by rfl)⟩

/-- C5: a call-class mnemonic (case-insensitive) yields exactly the
    fallthrough in skip-calls mode; in enter-calls mode exactly the first
    hexadecimal literal of the operand when parseable, else exactly the
    fallthrough. -/
theorem c5_call_classifier (h : IterHost) (mnem op : List Char) (nxt : Nat)
    (hc : pyStartswith (pyLower mnem) ("call".data) = true) :
    candAddrs true h mnem op nxt = [nxt] ∧
    (∀ tgt, _addr_from_operand op = some tgt →
      candAddrs false h mnem op nxt = [tgt]) ∧
    (_addr_from_operand op = none → candAddrs false h mnem op nxt = [nxt]) := by
  obtain ⟨t, ht⟩ := pyStartswith_exists _ _ hc
  have ht2 : pyLower mnem = 'c' :: ('a' :: 'l' :: 'l' :: t) := by simpa using ht
  have hr : pyStartswith (pyLower mnem) ("ret".data) = false := by
    rw [ht2]
    exact pyStartswith_cons_false _ _ _ _ (by decide)
  refine ⟨?_, ?_, ?_⟩
  · simp [candAddrs, classify, hr, hc]
  · intro tgt htgt
    simp [candAddrs, classify, hr, hc, htgt]
  · intro hna
    simp [candAddrs, classify, hr, hc, hna]

theorem c5_call_classifier_witness :
    candAddrs true okHost ("call".data) ("0x1000".data) 0x2000 = [0x2000] ∧
    candAddrs false okHost ("call".data) ("0x1000".data) 0x2000 = [0x1000] ∧
    candAddrs false okHost ("CALL".data) ("rax".data) 0x2000 = [0x2000] :=
  ⟨(c5_call_classifier okHost ("call".data) ("0x1000".data) 0x2000 (by decide)).1,
   (c5_call_classifier okHost ("call".data) ("0x1000".data) 0x2000 (by decide)).2.1
     0x1000 (by rfl),
   (c5_call_classifier okHost ("CALL".data) ("rax".data) 0x2000 (by decide)).2.2
     (by rfl)⟩

/-- C6: an exact jump-always mnemonic yields exactly the parsed target (else
    the fallthrough); any other jump-family mnemonic yields, as a set, the
    fallthrough together with the parsed target when one parses, else just
    the fallthrough. -/
theorem c6_jump_classifier (noc : Bool) (h : IterHost) (mnem op : List Char)
    (nxt : Nat) (hj : pyStartswith (pyLower mnem) ("j".data) = true) :
    ((pyLower mnem = "jmp".data ∨ pyLower mnem = "jmpq".data) →
      (∀ tg, _addr_from_operand op = some tg →
        candAddrs noc h mnem op nxt = [tg]) ∧
      (_addr_from_operand op = none → candAddrs noc h mnem op nxt = [nxt])) ∧
    (pyLower mnem ≠ "jmp".data → pyLower mnem ≠ "jmpq".data →
      (∀ tg, _addr_from_operand op = some tg →
        (candAddrs noc h mnem op nxt).toFinset = {nxt, tg}) ∧
      (_addr_from_operand op = none → candAddrs noc h mnem op nxt = [nxt])) := by
  obtain ⟨t, ht⟩ := pyStartswith_exists _ _ hj
  have ht2 : pyLower mnem = 'j' :: t := by simpa using ht
  have hr : pyStartswith (pyLower mnem) ("ret".data) = false := by
    rw [ht2]
    exact pyStartswith_cons_false _ _ _ _ (by decide)
  have hcall : pyStartswith (pyLower mnem) ("call".data) = false := by
    rw [ht2]
    exact pyStartswith_cons_false _ _ _ _ (by decide)
  constructor
  · intro hjmp
    have hbeq : (pyLower mnem == "jmp".data || pyLower mnem == "jmpq".data) = true := by
      rcases hjmp with h1 | h1 <;> simp [h1]
    constructor
    · intro tg htg
      simp [candAddrs, classify, hr, hcall, hj, hbeq, htg]
    · intro hna
      simp [candAddrs, classify, hr, hcall, hj, hbeq, hna]
  · intro h1 h2
    have hbeq : (pyLower mnem == "jmp".data || pyLower mnem == "jmpq".data) = false := by
      simp only [Bool.or_eq_false_iff]
      constructor <;> simp [beq_eq_false_iff_ne]
      · exact h1
      · exact h2
    constructor
    · intro tg htg
      simp [candAddrs, classify, hr, hcall, hj, hbeq, htg]
    · intro hna
      simp [candAddrs, classify, hr, hcall, hj, hbeq, hna]

theorem c6_jump_classifier_witness :
    candAddrs false okHost ("jmp".data) ("0x3000".data) 0x2000 = [0x3000] ∧
    (candAddrs false okHost ("je".data) ("0x4000".data) 0x2500).toFinset =
      {0x2500, 0x4000} ∧
    candAddrs true okHost ("jne".data) ("rax".data) 0x2500 = [0x2500] :=
  ⟨((c6_jump_classifier false okHost ("jmp".data) ("0x3000".data) 0x2000
      (by decide)).1 (Or.inl (by decide))).1 0x3000 (by rfl),
   ((c6_jump_classifier false okHost ("je".data) ("0x4000".data) 0x2500
      (by decide)).2 (by decide) (by decide)).1 0x4000 (by rfl),
   ((c6_jump_classifier true okHost ("jne".data) ("rax".data) 0x2500
      (by decide)).2 (by decide) (by decide)).2 (by rfl)⟩

/-! ## Claim C9: the count argument -/

theorem decDigit_isHex (c : Char) (h : isDecDigit c = true) : isHexDigit c = true := by
  simp [isHexDigit, h]

theorem decDigitVal_lt_10 (c : Char) (h : isDecDigit c = true) : hexDigitVal c < 10 := by
  simp only [isDecDigit, Bool.and_eq_true, decide_eq_true_eq] at h
  unfold hexDigitVal
  rw [if_pos (by simp [isDecDigit]; omega)]
  omega

theorem hexDigitVal_lt_16 (c : Char) (h : isHexDigit c = true) : hexDigitVal c < 16 := by
  simp only [isHexDigit, isDecDigit, Bool.or_eq_true, Bool.and_eq_true,
    decide_eq_true_eq] at h
  unfold hexDigitVal
  rcases h with (h | h) | h
  · rw [if_pos (by simp [isDecDigit]; omega)]
    omega
  · rw [if_neg (by simp [isDecDigit]; omega), if_pos (by omega)]
    omega
  · rw [if_neg (by simp [isDecDigit]; omega), if_neg (by omega)]
    omega

theorem decDigit_ne_plus (c : Char) (h : isDecDigit c = true) : c ≠ '+' := by
  intro he
  rw [he] at h
  exact absurd h (by decide)

theorem decDigit_ne_minus (c : Char) (h : isDecDigit c = true) : c ≠ '-' := by
  intro he
  rw [he] at h
  exact absurd h (by decide)

theorem parseDigits_some (b : Nat) (ds : List Char) (hne : ds ≠ [])
    (h : ∀ c ∈ ds, isHexDigit c = true ∧ hexDigitVal c < b) :
    parseDigits b ds = some (baseVal b ds) := by
  have h1 : (!ds.isEmpty && ds.all (fun c => isHexDigit c && hexDigitVal c < b)) = true := by
    simp only [Bool.and_eq_true, List.all_eq_true]
    refine ⟨by simp [hne], fun c hc => ?_⟩
    simp [(h c hc).1, (h c hc).2]
  unfold parseDigits
  rw [if_pos h1]

theorem natPart_dec (x : Char) (xs : List Char) (hx : x ≠ '0')
    (hall : ∀ c ∈ x :: xs, isDecDigit c = true) :
    natPart (x :: xs) = some (baseVal 10 (x :: xs)) := by
  simp only [natPart]
  rw [if_neg hx]
  exact parseDigits_some 10 (x :: xs) (by simp)
    (fun c hc => ⟨decDigit_isHex c (hall c hc), decDigitVal_lt_10 c (hall c hc)⟩)

theorem natPart_hex (ds : List Char) (hne : ds ≠ [])
    (hall : ∀ c ∈ ds, isHexDigit c = true) :
    natPart ('0' :: 'x' :: ds) = some (baseVal 16 ds) := by
  have hp := parseDigits_some 16 ds hne
    (fun c hc => ⟨hall c hc, hexDigitVal_lt_16 c (hall c hc)⟩)
  simp only [natPart, natPartZero]
  simp [hp]

theorem pyIntBase0_dec (x : Char) (xs : List Char) (hx : x ≠ '0')
    (hall : ∀ c ∈ x :: xs, isDecDigit c = true) :
    pyIntBase0 (x :: xs) = some ((baseVal 10 (x :: xs) : Nat) : Int) := by
  simp only [pyIntBase0]
  rw [if_neg (decDigit_ne_plus x (hall x (by simp))),
    if_neg (decDigit_ne_minus x (hall x (by simp))),
    natPart_dec x xs hx hall]
  rfl

theorem pyIntBase0_hex (ds : List Char) (hne : ds ≠ [])
    (hall : ∀ c ∈ ds, isHexDigit c = true) :
    pyIntBase0 ('0' :: 'x' :: ds) = some ((hexVal ds : Nat) : Int) := by
  simp only [pyIntBase0]
  rw [if_neg (by decide), if_neg (by decide), natPart_hex ds hne hall]
  rfl

theorem pyIntBase0_nil : pyIntBase0 [] = none := rfl

theorem pyInvoke_count (noc : Bool) (hosts : Nat → IterHost) (arg : List Char)
    (n : Nat) (hparse : pyIntBase0 (pyStrip arg) = some ((n : Nat) : Int))
    (hok : ∀ i, i < n → (_step_like noc (hosts i)).result = .ok) :
    (pyInvoke noc hosts arg).1.length = n ∧ (pyInvoke noc hosts arg).2 = .ok := by
  have hspec := runSteps_ok_spec noc hosts n 0 (fun i hi => by simpa using hok i hi)
  by_cases he : (pyStrip arg).isEmpty = true
  · exfalso
    have h0 : pyStrip arg = [] := by simpa using he
    rw [h0, pyIntBase0_nil] at hparse
    exact absurd hparse (by simp)
  · simp only [pyInvoke]
    rw [if_neg he, hparse]
    simp only [Int.toNat_natCast]
    exact ⟨hspec.1, by rw [hspec.2]; rfl⟩

theorem pyInvoke_default (noc : Bool) (hosts : Nat → IterHost) (arg : List Char)
    (he : pyStrip arg = []) (h0 : (_step_like noc (hosts 0)).result = .ok) :
    (pyInvoke noc hosts arg).1.length = 1 ∧ (pyInvoke noc hosts arg).2 = .ok := by
  have hspec := runSteps_ok_spec noc hosts 1 0 (fun i hi => by
    have hi0 : i = 0 := by omega
    subst hi0
    simpa using h0)
  simp only [pyInvoke]
  rw [if_pos (by simp [he])]
  exact ⟨hspec.1, by rw [hspec.2]; rfl⟩

/-- C9: the count is optional (default one repetition), and a decimal or
    `0x`-prefixed count string parses to the number of repetitions
    performed (both stepping operations go through `pyInvoke`). -/
theorem c9_count_argument :
    (∀ (noc : Bool) (hosts : Nat → IterHost) (arg : List Char),
      pyStrip arg = [] → (_step_like noc (hosts 0)).result = .ok →
      (pyInvoke noc hosts arg).1.length = 1 ∧ (pyInvoke noc hosts arg).2 = .ok) ∧
    (∀ (noc : Bool) (hosts : Nat → IterHost) (arg : List Char) (n : Nat),
      pyIntBase0 (pyStrip arg) = some ((n : Nat) : Int) →
      (∀ i, i < n → (_step_like noc (hosts i)).result = .ok) →
      (pyInvoke noc hosts arg).1.length = n ∧ (pyInvoke noc hosts arg).2 = .ok) ∧
    (∀ (x : Char) (xs : List Char), x ≠ '0' →
      (∀ c ∈ x :: xs, isDecDigit c = true) →
      pyIntBase0 (x :: xs) = some ((baseVal 10 (x :: xs) : Nat) : Int)) ∧
    (∀ ds : List Char, ds ≠ [] → (∀ c ∈ ds, isHexDigit c = true) →
      pyIntBase0 ('0' :: 'x' :: ds) = some ((hexVal ds : Nat) : Int)) :=
  ⟨pyInvoke_default, pyInvoke_count, pyIntBase0_dec, pyIntBase0_hex⟩

theorem c9_count_argument_witness :
    ((pyInvoke false (fun _ => okHost) [' ']).1.length = 1 ∧
      (pyInvoke false (fun _ => okHost) [' ']).2 = .ok) ∧
    ((pyInvoke true (fun _ => okHost) ("2".data)).1.length = 2 ∧
      (pyInvoke true (fun _ => okHost) ("2".data)).2 = .ok) ∧
    pyIntBase0 ("42".data) = some 42 ∧
    pyIntBase0 ("0x1f".data) = some 31 :=
  ⟨c9_count_argument.1 false (fun _ => okHost) [' '] (by rfl) (by rfl),
   c9_count_argument.2.1 true (fun _ => okHost) ("2".data) 2 (by rfl)
     (fun i _ => by rfl),
   c9_count_argument.2.2.1 '4' ['2'] (by decide) (by decide),
   c9_count_argument.2.2.2 ("1f".data) (by decide) (by decide)⟩

/-! ## Claim C7 witness helpers and C8 -/

theorem headCondOf (c : Char) (cs : List Char) (hc : isWS c = false) :
    ∀ x, (c :: cs).head? = some x → isWS x = false :=
  fun _ hx => (Option.some.inj hx) ▸ hc

theorem lastCondOf (l : List Char) (d : Char) (hl : l.getLast? = some d)
    (hd : isWS d = false) : ∀ x, l.getLast? = some x → isWS x = false :=
  fun _ hx => (Option.some.inj ((hl.symm).trans hx)) ▸ hd

theorem c7_decode_shape_witness :
    _parse_insn (mkInsnLine true ("a1".data) ("mov".data) ("rax, 0x5".data)) =
      .ok (0xa1, "mov".data, "rax, 0x5".data) ∧
    _parse_insn (mkInsnLine false ("a2".data) ("ret".data) []) =
      .ok (0xa2, "ret".data, []) :=
  ⟨c7_decode_shape true ("a1".data) ("mov".data) ("rax, 0x5".data)
     (by decide) (by decide) (by decide) (by decide)
     (headCondOf 'r' _ (by decide)) (lastCondOf _ '5' (by rfl) (by decide)),
   c7_decode_shape false ("a2".data) ("ret".data) []
     (by decide) (by decide) (by decide) (by decide)
     (fun x hx => Option.noConfusion hx) (fun x hx => Option.noConfusion hx)⟩

/-- C8: decoding a line fails exactly when it contains no hexadecimal
    literal; and an iteration whose disassembly source yields fewer than two
    usable lines fails with a parse error that arms nothing and propagates
    out of the stepping loop. -/
theorem c8_parse_errors :
    (∀ line, isOkB (_parse_insn line) = hasHexLiteral line) ∧
    (∀ (noc : Bool) (h : IterHost),
      (h.disas.filter (fun l => !(pyStrip l).isEmpty)).length < 2 →
      ∃ m, (_step_like noc h).result = .parseErr m ∧
        (_step_like noc h).created = []) ∧
    (∀ (noc : Bool) (hosts : Nat → IterHost) (n : Nat), 0 < n →
      ((hosts 0).disas.filter (fun l => !(pyStrip l).isEmpty)).length < 2 →
      ∃ m, (runSteps noc hosts n 0).2 = some (.parseErr m)) := by
  refine ⟨isOkB_parse, ?_, ?_⟩
  · intro noc h hlen
    have hstep : _step_like noc h = parseTrace "x/2i $pc returned < 2 lines" := by
      unfold _step_like
      simp only [_disas2_short h.disas hlen]
    exact ⟨_, by rw [hstep]; rfl, by rw [hstep]; rfl⟩
  · intro noc hosts n hn hlen
    have hstep : _step_like noc (hosts 0) = parseTrace "x/2i $pc returned < 2 lines" := by
      unfold _step_like
      simp only [_disas2_short (hosts 0).disas hlen]
    cases n with
    | zero => exact absurd hn (by omega)
    | succ k =>
      refine ⟨"x/2i $pc returned < 2 lines", ?_⟩
      simp only [runSteps, hstep, parseTrace]

theorem c8_parse_errors_witness :
    isOkB (_parse_insn ("mov rax, 1".data)) = hasHexLiteral ("mov rax, 1".data) ∧
    (∃ m, (_step_like false shortHost).result = .parseErr m ∧
      (_step_like false shortHost).created = []) ∧
    (∃ m, (runSteps false (fun _ => shortHost) 1 0).2 = some (.parseErr m)) :=
  ⟨c8_parse_errors.1 _,
   c8_parse_errors.2.1 false shortHost (by decide),
   c8_parse_errors.2.2 false (fun _ => shortHost) 1 (by decide) (by decide)⟩
